import Mathlib

/-!
Verification development for the charged-particle tracing engine documented in
`docs/notebooks/diagnostics/proton_radiography_particle_tracing.ipynb`
(`SyntheticProtonRadiograph`).  The engine itself is not shipped in this
repository — only the notebook that documents its behaviour — so the data
model and the operations below are modelled from the specification, using
exact rational arithmetic in place of IEEE floats.
-/

namespace ProtonRad

/-- A 3-vector with exact rational components, standing for the float
3-vectors used for positions, velocities and fields. -/
structure Vec3 where
  x : ℚ
  y : ℚ
  z : ℚ
deriving DecidableEq, Repr

namespace Vec3

def zero : Vec3 := ⟨0, 0, 0⟩

def add (a b : Vec3) : Vec3 := ⟨a.x + b.x, a.y + b.y, a.z + b.z⟩

def sub (a b : Vec3) : Vec3 := ⟨a.x - b.x, a.y - b.y, a.z - b.z⟩

def smul (c : ℚ) (a : Vec3) : Vec3 := ⟨c * a.x, c * a.y, c * a.z⟩

instance : Add Vec3 := ⟨Vec3.add⟩

instance : Sub Vec3 := ⟨Vec3.sub⟩

instance : SMul ℚ Vec3 := ⟨Vec3.smul⟩

/-- Dot product. -/
def dot (a b : Vec3) : ℚ := a.x * b.x + a.y * b.y + a.z * b.z

/-- Cross product. -/
def cross (a b : Vec3) : Vec3 :=
  ⟨a.y * b.z - a.z * b.y, a.z * b.x - a.x * b.z, a.x * b.y - a.y * b.x⟩

/-- Squared Euclidean norm: the (squared) speed of a velocity vector. -/
def normSq (a : Vec3) : ℚ := a.dot a

end Vec3

/-!
## Boris pusher (spec §4.3)

Modelled from the spec: advance one particle's velocity by one timestep under
the Lorentz force using the Boris scheme — (1) half an electric-field kick,
(2) rotation of the velocity by the magnetic field over the full step,
(3) the second half electric-field kick — and then advance the position with
the updated velocity.  `qm` is the charge-to-mass ratio, `dt` the timestep.
-/

/-- Half electric-field velocity kick: `v + (q/m)(Δt/2) E`. -/
def halfKick (qm dt : ℚ) (E v : Vec3) : Vec3 := v + (qm * dt / 2) • E

/-- The magnetic rotation of the Boris scheme, with
`t = (q/m)(Δt/2) B`: `vʹ = v + v × t`, result `v + (2/(1+|t|²)) (vʹ × t)`. -/
def borisRotate (t v : Vec3) : Vec3 :=
  let vp := v + v.cross t
  v + ((2 : ℚ) / (1 + t.normSq)) • (vp.cross t)

/-- Boris velocity update: half kick, magnetic rotation, half kick. -/
def borisPush (qm dt : ℚ) (E B v : Vec3) : Vec3 :=
  halfKick qm dt E (borisRotate ((qm * dt / 2) • B) (halfKick qm dt E v))

/-!
## Data model (spec §3) and error taxonomy (spec §7)
-/

/-- Lifecycle state of a particle (spec §3). -/
inductive PState
  | PENDING
  | ON_GRID
  | LEFT_GRID
  | REMOVED
deriving DecidableEq, Repr

/-- A particle: position `x` (metres), velocity `v` (metres/second), and a
lifecycle state.  Charge and rest mass are ensemble-wide, not per-particle. -/
structure Particle where
  x : Vec3
  v : Vec3
  st : PState
deriving DecidableEq, Repr

/-- Error taxonomy of spec §7 (`OutOfBoundsQuery` is internal to the Field
Sampler/Driver interaction and never surfaces to the caller, so it is not a
constructor here). -/
inductive SimError
  | InvalidParameter
  | NumericalInstability
  | SimulationDidNotConverge
deriving DecidableEq, Repr

/-- Modelled from the spec: the field grid as seen by the core (spec §3, §6)
— an axis-aligned bounding box plus the point-wise interpolation capability.
The sampler contract `sample(position) -> (E, B, in_bounds)` is split into
the two field functions and the `contains` bounding-box test. -/
structure Grid where
  lo : Vec3
  hi : Vec3
  Efield : Vec3 → Vec3
  Bfield : Vec3 → Vec3

/-- Bounding-box membership test (`in_bounds` of the Field Sampler). -/
def Grid.contains (g : Grid) (v : Vec3) : Bool :=
  decide (g.lo.x ≤ v.x) && decide (v.x ≤ g.hi.x) &&
  decide (g.lo.y ≤ v.y) && decide (v.y ≤ g.hi.y) &&
  decide (g.lo.z ≤ v.z) && decide (v.z ≤ g.hi.z)

/-!
## Particle creation (spec §4.1)
-/

/-- The two velocity-distribution modes of spec §4.1, by their documented
names: `"monte-carlo"` is the solid-angle-uniform Monte-Carlo default,
`"uniform"` the uniform-in-θ comparison mode. -/
def knownDistribution (d : String) : Bool :=
  d == "monte-carlo" || d == "uniform"

/-- Modelled from the spec: `create_particles` (spec §4.1) materialises
`nparticles` particles at the source with state `PENDING`.  Angles are
measured in units of π (so the admissible half-angle range (0, π] becomes
(0, 1]).  The Monte-Carlo angular sampling and the energy-to-speed
conversion are abstracted into the explicit `sampler` argument (spec §9
requires an explicit, seedable random source); the validation logic is the
part under test.  Invalid inputs signal `InvalidParameter` and produce no
ensemble, so the pre-existing simulation state is untouched. -/
def create_particles (source : Vec3) (nparticles : ℤ) (particle_energy : ℚ)
    (max_theta : ℚ) (distribution : String) (sampler : ℕ → Vec3) :
    Except SimError (List Particle) :=
  if nparticles ≤ 0 then .error .InvalidParameter
  else if particle_energy ≤ 0 then .error .InvalidParameter
  else if ¬(0 < max_theta ∧ max_theta ≤ 1) then .error .InvalidParameter
  else if ¬ knownDistribution distribution then .error .InvalidParameter
  else .ok ((List.range nparticles.toNat).map
    (fun i => ⟨source, sampler i, .PENDING⟩))

/-!
## Timestep Controller (spec §4.2)
-/

/-- Fraction of a grid cell a particle may cross in one step (spec §4.2:
"no single step moves a particle further than a small fraction of a grid
cell"). -/
def gridFrac : ℚ := 1 / 10

/-- Lower clamp on Δt, guaranteeing termination (spec §4.2). -/
def dtMin : ℚ := 1 / 10 ^ 12

/-- Upper clamp on Δt (spec §4.2). -/
def dtMax : ℚ := 1

/-- Clamp a candidate Δt into `[dtMin, dtMax]`. -/
def clampDt (t : ℚ) : ℚ := max dtMin (min dtMax t)

/-- Modelled from the spec: the Timestep Controller (spec §4.2).  A user
override is used verbatim when it is usable; otherwise candidate steps are
collected — one proportional to (grid cell size / particle speed), one
inversely related to the local field amplitude — the smallest is taken and
clamped.  When no candidate is computable (e.g. identically zero field and
zero grid spacing) it signals `NumericalInstability`.  Pure: no side effect
beyond the returned value. -/
def timestep_controller (dtOverride : Option ℚ)
    (Emag Bmag cellSize speed : ℚ) : Except SimError ℚ :=
  match dtOverride with
  | some dt => if 0 < dt then .ok dt else .error .NumericalInstability
  | none =>
    let cands :=
      (if 0 < cellSize ∧ 0 < speed then [gridFrac * (cellSize / speed)] else [])
      ++ (if 0 < Emag + Bmag then [1 / (Emag + Bmag)] else [])
    match cands with
    | [] => .error .NumericalInstability
    | c :: cs => .ok (clampDt (cs.foldl min c))

/-!
## Simulation Driver — phase state machine (spec §4.4)

Modelled from the spec and the notebook's description of the simulation
cycle.  Simplifications, recorded here: the notebook (cell "run()", step 1)
states that particles that will never cross the grid "are retained, but are
coasted directly to the detector plane instead of being pushed through the
grid", so off-grid particles simply keep their `PENDING` state and coast in
a straight line (the field is zero off the grid) until the final bulk
advance — no separate classification pass is needed.  The bulk advance of
Transition 2 is by the time `tpre` at which the earliest particle would
first enter the grid; its analytic computation is a pure optimisation, so
the model takes `tpre` as an argument of `run`.  The per-iteration Δt is the
single global value chosen for the run (spec §9 leaves global-vs-per-particle
open); its adaptive computation is `timestep_controller`.
-/

/-- One stepped-loop update of a single particle (Transition 3): a `PENDING`
particle coasts straight until it is inside the grid box, where it becomes
`ON_GRID`; an `ON_GRID` particle whose position now falls outside the box
transitions to `LEFT_GRID` (the Field Sampler's `OutOfBoundsQuery` signal),
otherwise the fields are interpolated at its position and the Boris pusher
advances it.  `LEFT_GRID` and `REMOVED` particles are not stepped. -/
def stepParticle (g : Grid) (qm dt : ℚ) (p : Particle) : Particle :=
  match p.st with
  | .REMOVED => p
  | .LEFT_GRID => p
  | .PENDING =>
    if g.contains p.x then
      let vnew := borisPush qm dt (g.Efield p.x) (g.Bfield p.x) p.v
      ⟨p.x + dt • vnew, vnew, .ON_GRID⟩
    else
      ⟨p.x + dt • p.v, p.v, .PENDING⟩
  | .ON_GRID =>
    if g.contains p.x then
      let vnew := borisPush qm dt (g.Efield p.x) (g.Bfield p.x) p.v
      ⟨p.x + dt • vnew, vnew, .ON_GRID⟩
    else
      ⟨p.x, p.v, .LEFT_GRID⟩

/-- One iteration of the stepped loop over the whole ensemble. -/
def stepAll (g : Grid) (qm dt : ℚ) (ps : List Particle) : List Particle :=
  ps.map (stepParticle g qm dt)

/-- The observable progress quantity: how many particles are currently
`ON_GRID` (the notebook's progress bar). -/
def onGridCount (ps : List Particle) : ℕ :=
  ps.countP (fun p => p.st == .ON_GRID)

/-- How many particles have entered the grid at some point (currently on it
or already left it). -/
def enteredCount (ps : List Particle) : ℕ :=
  ps.countP (fun p => p.st == .ON_GRID || p.st == .LEFT_GRID)

/-- The near-completion threshold, "small relative to total particle count"
(spec §4.4): one percent of the ensemble. -/
def threshold (total : ℕ) : ℕ := total / 100

/-- Stop condition of the stepped loop: the run has started interacting with
the grid and the `ON_GRID` count has fallen to the near-completion
threshold. -/
def stopCond (ps : List Particle) : Bool :=
  decide (0 < enteredCount ps) && decide (onGridCount ps ≤ threshold ps.length)

/-- Outcome flag of a run: either the stepped loop reached its termination
condition, or the iteration budget was exceeded
(`SimulationDidNotConverge`, spec §7) — the result is still returned,
flagged incomplete. -/
inductive RunStatus
  | converged
  | didNotConverge
deriving DecidableEq, Repr

/-- Transition 3, with an explicit iteration budget: repeat `stepAll` until
the stop condition holds or the budget runs out. -/
def steppedLoop (g : Grid) (qm dt : ℚ) :
    ℕ → List Particle → List Particle × RunStatus
  | 0, ps => if stopCond ps then (ps, .converged) else (ps, .didNotConverge)
  | fuel + 1, ps =>
    if stopCond ps then (ps, .converged)
    else steppedLoop g qm dt fuel (stepAll g qm dt ps)

/-- The successive ensembles observed at each iteration of the stepped loop
(first entry: the state at loop entry). -/
def loopEnsembles (g : Grid) (qm dt : ℚ) :
    ℕ → List Particle → List (List Particle)
  | 0, ps => [ps]
  | fuel + 1, ps =>
    if stopCond ps then [ps]
    else ps :: loopEnsembles g qm dt fuel (stepAll g qm dt ps)

/-- The progress-bar trace: the `ON_GRID` count at every iteration of the
stepped loop. -/
def loopTrace (g : Grid) (qm dt : ℚ) (fuel : ℕ) (ps : List Particle) :
    List ℕ :=
  (loopEnsembles g qm dt fuel ps).map onGridCount

/-- Straight-line bulk advance by time `t` (Transitions 1/2: before grid
contact the field is zero, so the advance is analytic). -/
def advanceStraight (t : ℚ) (p : Particle) : Particle :=
  match p.st with
  | .REMOVED => p
  | _ => ⟨p.x + t • p.v, p.v, p.st⟩

/-- Transition 4: advance a particle analytically to the detector plane
(the plane through `detector` normal to the source-detector axis).  A
particle whose velocity component along that axis does not point toward the
detector is permanently `REMOVED` — it will never be measured. -/
def advanceToDetector (source detector : Vec3) (p : Particle) : Particle :=
  match p.st with
  | .REMOVED => p
  | _ =>
    let n := detector - source
    let vn := p.v.dot n
    if vn ≤ 0 then ⟨p.x, p.v, .REMOVED⟩
    else ⟨p.x + (((detector - p.x).dot n) / vn) • p.v, p.v, p.st⟩

/-- A completed run: the final ensemble (all surviving particles advanced to
the detector plane) plus the convergence flag. -/
structure RunResult where
  particles : List Particle
  status : RunStatus
deriving DecidableEq, Repr

/-- Modelled from the spec: the full simulation cycle `run` (spec §4.4,
notebook steps 1–4).  Transition 2 bulk-advances every particle by `tpre`;
Transition 3 is the stepped loop under the iteration budget; Transition 4
advances everything to the detector plane.  Transition 4 runs even when the
budget was exceeded (spec §5: an abort must still run Transition 4), and
the incomplete flag is carried in the result. -/
def run (g : Grid) (source detector : Vec3) (qm dt tpre : ℚ) (budget : ℕ)
    (ps0 : List Particle) : RunResult :=
  let ps1 := ps0.map (advanceStraight tpre)
  let res := steppedLoop g qm dt budget ps1
  ⟨res.1.map (advanceToDetector source detector), res.2⟩

/-- Every ensemble state a run passes through: the initial ensemble, the
state at every iteration of the stepped loop (the post-Transition-2 state is
the first of these), and the final post-Transition-4 ensemble. -/
def runTrace (g : Grid) (source detector : Vec3) (qm dt tpre : ℚ)
    (budget : ℕ) (ps0 : List Particle) : List (List Particle) :=
  let ps1 := ps0.map (advanceStraight tpre)
  let res := steppedLoop g qm dt budget ps1
  ps0 :: (loopEnsembles g qm dt budget ps1
    ++ [res.1.map (advanceToDetector source detector)])

/-!
## Radiograph Builder (spec §4.5, notebook `synthetic_radiograph`)
-/

/-- Histogram extent: lower-left and upper-right corners in detector-plane
coordinates (the notebook's `size` keyword). -/
structure Extent where
  hlo : ℚ
  hhi : ℚ
  vlo : ℚ
  vhi : ℚ
deriving DecidableEq, Repr

/-- Project a position onto the detector plane's 2D coordinate basis
`(e1, e2)` (the two in-plane unit vectors derived once at setup, spec §3),
with the detector point as plane origin. -/
def projectToPlane (detector e1 e2 : Vec3) (pos : Vec3) : ℚ × ℚ :=
  ((pos - detector).dot e1, (pos - detector).dot e2)

/-- Is a plane coordinate pair within the histogram extent?  Half-open on
the upper edges, matching the bin assignment. -/
def inExtent (ext : Extent) (c : ℚ × ℚ) : Bool :=
  decide (ext.hlo ≤ c.1) && decide (c.1 < ext.hhi) &&
  decide (ext.vlo ≤ c.2) && decide (c.2 < ext.vhi)

/-- Index of the equal-width bin containing coordinate `c` in `[lo, hi)`
split into `n` bins. -/
def binOf (lo hi : ℚ) (n : ℕ) (c : ℚ) : ℕ :=
  (⌊(c - lo) * n / (hi - lo)⌋).toNat

/-- Bin assignment of a plane coordinate pair: a particle outside the extent
is dropped (assigned to no bin), never clipped into an edge bin. -/
def bin2 (ext : Extent) (hbins vbins : ℕ) (c : ℚ × ℚ) : Option (ℕ × ℕ) :=
  if inExtent ext c then
    some (binOf ext.hlo ext.hhi hbins c.1, binOf ext.vlo ext.vhi vbins c.2)
  else none

/-- A particle still counted by the Radiograph Builder: every state except
`REMOVED`. -/
def notRemoved (p : Particle) : Bool := !(p.st == .REMOVED)

/-- Intensity of bin `(i, j)`: the number of non-`REMOVED` particles whose
projected detector-plane position is assigned to that bin. -/
def intensity (detector e1 e2 : Vec3) (ext : Extent) (hbins vbins : ℕ)
    (ps : List Particle) (i j : ℕ) : ℕ :=
  ps.countP (fun p => notRemoved p &&
    (bin2 ext hbins vbins (projectToPlane detector e1 e2 p.x) == some (i, j)))

/-- Horizontal bin-edge sequence (`hbins + 1` equally spaced edges). -/
def haxEdges (ext : Extent) (hbins : ℕ) : List ℚ :=
  (List.range (hbins + 1)).map
    (fun i => ext.hlo + i * (ext.hhi - ext.hlo) / hbins)

/-- Vertical bin-edge sequence (`vbins + 1` equally spaced edges). -/
def vaxEdges (ext : Extent) (vbins : ℕ) : List ℚ :=
  (List.range (vbins + 1)).map
    (fun i => ext.vlo + i * (ext.vhi - ext.vlo) / vbins)

/-- Modelled from the spec: `synthetic_radiograph` (spec §4.5) — horizontal
bin edges, vertical bin edges, and the 2D intensity array, derived purely
from the ensemble it borrows. -/
def synthetic_radiograph (detector e1 e2 : Vec3) (ext : Extent)
    (hbins vbins : ℕ) (ps : List Particle) :
    List ℚ × List ℚ × (ℕ → ℕ → ℕ) :=
  (haxEdges ext hbins, vaxEdges ext vbins,
    intensity detector e1 e2 ext hbins vbins ps)

/-- Total intensity: the histogram summed over all bins. -/
def totalIntensity (detector e1 e2 : Vec3) (ext : Extent) (hbins vbins : ℕ)
    (ps : List Particle) : ℕ :=
  ∑ i ∈ Finset.range hbins, ∑ j ∈ Finset.range vbins,
    intensity detector e1 e2 ext hbins vbins ps i j

/-!
## Setup geometry and units (notebook constructor)

Modelled from the spec/notebook: the constructor ingests source and detector
positions as dimensioned quantities (the notebook passes millimetre
`astropy` quantities) and stores them as plain SI-metre numbers — the
notebook multiplies `sim.source` by 100 to plot centimetres and reattaches
`u.m` to recover a dimensioned value.
-/

/-- A dimensioned scalar: a numeric value together with its unit's scale
factor to SI metres (e.g. `1/1000` for millimetres, `1/100` for
centimetres). -/
structure Quantity where
  value : ℚ
  scaleToSI : ℚ
deriving DecidableEq, Repr

/-- The plain SI-metre number of a quantity. -/
def Quantity.si (q : Quantity) : ℚ := q.value * q.scaleToSI

/-- Scale factor of millimetres. -/
def mmScale : ℚ := 1 / 1000

/-- Scale factor of centimetres. -/
def cmScale : ℚ := 1 / 100

/-- Re-express an SI-metre number in a unit with the given scale factor. -/
def toUnit (scale si : ℚ) : ℚ := si / scale

/-- The publicly readable geometry attributes of a simulation object. -/
structure SyntheticProtonRadiograph where
  source : Vec3
  detector : Vec3
deriving DecidableEq, Repr

/-- Modelled from the spec: the constructor converts each dimensioned
component of the source and detector 3-tuples to a plain SI-metre number and
stores those. -/
def mkRadiograph (s1 s2 s3 d1 d2 d3 : Quantity) : SyntheticProtonRadiograph :=
  ⟨⟨s1.si, s2.si, s3.si⟩, ⟨d1.si, d2.si, d3.si⟩⟩

/-!
## Derived observables and audit scaffolding
-/

/-- Number of particles currently in lifecycle state `s`. -/
def stateCount (s : PState) (ps : List Particle) : ℕ :=
  ps.countP (fun p => p.st == s)

/-- The particle count summed across the four lifecycle states. -/
def stateSum (ps : List Particle) : ℕ :=
  stateCount .PENDING ps + stateCount .ON_GRID ps
    + stateCount .LEFT_GRID ps + stateCount .REMOVED ps

/-- Is a numeric sequence nondecreasing? -/
def nondecr : List ℕ → Bool
  | a :: b :: rest => decide (a ≤ b) && nondecr (b :: rest)
  | _ => true

/-- Is a numeric sequence nonincreasing? -/
def nonincr : List ℕ → Bool
  | a :: b :: rest => decide (b ≤ a) && nonincr (b :: rest)
  | _ => true

/-- Does a numeric sequence monotonically rise and then fall — i.e. split
into a nondecreasing prefix followed by a nonincreasing suffix? -/
def risesThenFalls (l : List ℕ) : Bool :=
  (List.range (l.length + 1)).any
    (fun m => nondecr (l.take m) && nonincr (l.drop m))

/-- The straight-line projection of the initial velocity ray from the source
onto the detector plane: the point `source + τ v` with
`τ = ((detector − source)·n)/(v·n)` for the plane normal
`n = detector − source`. -/
def straightLineTarget (source detector v : Vec3) : Vec3 :=
  source + ((detector - source).dot (detector - source)
    / v.dot (detector - source)) • v

/-- A field grid that is zero everywhere on its volume. -/
def zeroFieldOn (g : Grid) : Prop :=
  (∀ q : Vec3, g.Efield q = Vec3.zero) ∧ (∀ q : Vec3, g.Bfield q = Vec3.zero)

/-- A concrete zero-field grid: the box `[0,10] × [0,1] × [0,1]`. -/
def boxGrid : Grid :=
  ⟨⟨0, 0, 0⟩, ⟨10, 1, 1⟩, fun _ => Vec3.zero, fun _ => Vec3.zero⟩

/-- Three concrete pending particles aimed along +x at the box grid: a fast
one that crosses the box in a single step, a slow dweller, and a late
arrival.  Their on-grid counts overlap so that the progress trace dips and
rises again. -/
def dipParticles : List Particle :=
  [⟨⟨-1, 1/2, 1/2⟩, ⟨6, 0, 0⟩, .PENDING⟩,
   ⟨⟨-1, 1/2, 1/2⟩, ⟨1, 0, 0⟩, .PENDING⟩,
   ⟨⟨-5, 1/2, 1/2⟩, ⟨2, 0, 0⟩, .PENDING⟩]

/-- A concrete zero-field setup for evaluating a whole run: source below the
grid box on the y-axis, detector above it. -/
def lineGrid : Grid :=
  ⟨⟨-1, -1, -1⟩, ⟨1, 1, 1⟩, fun _ => Vec3.zero, fun _ => Vec3.zero⟩

/-- The source point of the concrete zero-field run. -/
def lineSource : Vec3 := ⟨0, -2, 0⟩

/-- The detector point of the concrete zero-field run. -/
def lineDetector : Vec3 := ⟨0, 4, 0⟩

/-- One concrete particle launched from `lineSource` straight at the
detector. -/
def lineParticles : List Particle :=
  [⟨lineSource, ⟨0, 1, 0⟩, .PENDING⟩]

/-!
## Lemmas about the vector algebra and the Boris pusher
-/

theorem Vec3.normSq_nonneg (a : Vec3) : 0 ≤ a.normSq := by
  have hx : 0 ≤ a.x * a.x := mul_self_nonneg _
  have hy : 0 ≤ a.y * a.y := mul_self_nonneg _
  have hz : 0 ≤ a.z * a.z := mul_self_nonneg _
  simp only [Vec3.normSq, Vec3.dot]
  linarith

@[simp] theorem Vec3.add_def (a b : Vec3) :
    a + b = ⟨a.x + b.x, a.y + b.y, a.z + b.z⟩ := rfl

@[simp] theorem Vec3.sub_def (a b : Vec3) :
    a - b = ⟨a.x - b.x, a.y - b.y, a.z - b.z⟩ := rfl

@[simp] theorem Vec3.smul_def (c : ℚ) (a : Vec3) :
    c • a = ⟨c * a.x, c * a.y, c * a.z⟩ := rfl

/-- Key algebraic fact behind energy conservation: the Boris magnetic
rotation preserves the squared speed exactly. -/
theorem borisRotate_normSq (t v : Vec3) :
    (borisRotate t v).normSq = v.normSq := by
  have hpos : (0 : ℚ) < 1 + t.normSq := by
    have := Vec3.normSq_nonneg t
    linarith
  have hne : (1 : ℚ) + t.normSq ≠ 0 := ne_of_gt hpos
  obtain ⟨tx, ty, tz⟩ := t
  obtain ⟨vx, vy, vz⟩ := v
  simp only [borisRotate, Vec3.cross, Vec3.normSq, Vec3.dot, Vec3.add_def,
    Vec3.smul_def] at hne ⊢
  field_simp
  ring

/-- With a zero electric field the Boris push is exactly the magnetic
rotation: the half kicks vanish. -/
theorem borisPush_zeroE (qm dt : ℚ) (B v : Vec3) :
    borisPush qm dt Vec3.zero B v = borisRotate ((qm * dt / 2) • B) v := by
  obtain ⟨vx, vy, vz⟩ := v
  simp [borisPush, halfKick, Vec3.zero]

/-- With zero fields the Boris push leaves the velocity unchanged. -/
theorem borisPush_zero_fields (qm dt : ℚ) (v : Vec3) :
    borisPush qm dt Vec3.zero Vec3.zero v = v := by
  obtain ⟨vx, vy, vz⟩ := v
  simp [borisPush, halfKick, borisRotate, Vec3.zero, Vec3.cross, Vec3.normSq,
    Vec3.dot]

/-- C4: for every particle state, timestep and constant magnetic field,
the Boris push with `E = 0` preserves the particle's squared speed exactly
over any number of steps; and across a single push with arbitrary `E`, the
push factors as half kick → magnetic rotation → half kick where the
rotation step preserves the squared speed exactly — so any speed change is
due solely to the two half electric-field kicks. -/
theorem borisPush_speed_preservation (qm dt : ℚ) (B : Vec3) :
    (∀ (v : Vec3) (n : ℕ),
      (Vec3.normSq ((fun w => borisPush qm dt Vec3.zero B w)^[n] v))
        = v.normSq)
    ∧ (∀ (E w : Vec3),
        borisPush qm dt E B w
          = halfKick qm dt E (borisRotate ((qm * dt / 2) • B)
              (halfKick qm dt E w))
        ∧ (borisRotate ((qm * dt / 2) • B) (halfKick qm dt E w)).normSq
            = (halfKick qm dt E w).normSq) := by
  constructor
  · intro v n
    induction n generalizing v with
    | zero => simp
    | succ k ih =>
      rw [Function.iterate_succ_apply]
      rw [ih]
      rw [borisPush_zeroE]
      exact borisRotate_normSq _ _
  · intro E w
    exact ⟨rfl, borisRotate_normSq _ _⟩

/-!
## Timestep Controller and particle creation contracts
-/

theorem clampDt_pos (t : ℚ) : 0 < clampDt t := by
  have h : (0 : ℚ) < dtMin := by norm_num [dtMin]
  exact lt_of_lt_of_le h (le_max_left _ _)

/-- C5: for every input — field magnitudes, grid cell spacing, particle
speed, optional user override — the Timestep Controller either returns a
strictly positive Δt (an exact rational, hence finite) or signals
`NumericalInstability`; being a pure function it has no side effect beyond
the returned value. -/
theorem timestep_controller_pos_or_error
    (dtOverride : Option ℚ) (Emag Bmag cellSize speed : ℚ) :
    timestep_controller dtOverride Emag Bmag cellSize speed
        = Except.error SimError.NumericalInstability
    ∨ ∃ dt : ℚ, timestep_controller dtOverride Emag Bmag cellSize speed
        = Except.ok dt ∧ 0 < dt := by
  rcases dtOverride with _ | dt
  · simp only [timestep_controller]
    split_ifs with h1 h2 h2
    · exact Or.inr ⟨_, rfl, clampDt_pos _⟩
    · exact Or.inr ⟨_, rfl, clampDt_pos _⟩
    · exact Or.inr ⟨_, rfl, clampDt_pos _⟩
    · exact Or.inl rfl
  · simp only [timestep_controller]
    split_ifs with h1
    · exact Or.inr ⟨dt, rfl, h1⟩
    · exact Or.inl rfl

/-- C9: `create_particles` signals `InvalidParameter` whenever the particle
count is ≤ 0, the kinetic energy is ≤ 0, the maximum launch half-angle is
outside (0, π] (angles in units of π), or the distribution-mode name is
unknown; no ensemble is produced, so the pre-existing simulation state is
left unchanged. -/
theorem create_particles_invalid
    (source : Vec3) (nparticles : ℤ) (particle_energy max_theta : ℚ)
    (distribution : String) (sampler : ℕ → Vec3)
    (h : nparticles ≤ 0 ∨ particle_energy ≤ 0
      ∨ ¬(0 < max_theta ∧ max_theta ≤ 1)
      ∨ knownDistribution distribution = false) :
    create_particles source nparticles particle_energy max_theta
        distribution sampler
      = Except.error SimError.InvalidParameter := by
  unfold create_particles
  split_ifs with h1 h2 h3 h4 <;> first | rfl | simp_all

/-- Concrete instance of C9: a zero particle count is rejected. -/
theorem create_particles_invalid_witness :
    create_particles Vec3.zero 0 1 (1 / 2) "monte-carlo" (fun _ => Vec3.zero)
      = Except.error SimError.InvalidParameter :=
  create_particles_invalid _ _ _ _ _ _ (Or.inl (by norm_num))

/-!
## Radiograph Builder lemmas
-/

theorem intensity_filter_notRemoved (detector e1 e2 : Vec3) (ext : Extent)
    (hbins vbins : ℕ) (ps : List Particle) (i j : ℕ) :
    intensity detector e1 e2 ext hbins vbins (ps.filter notRemoved) i j
      = intensity detector e1 e2 ext hbins vbins ps i j := by
  unfold intensity
  rw [List.countP_filter]
  refine List.countP_congr (fun p _ => ?_)
  cases hnr : notRemoved p <;> simp [hnr]

/-- C2: a particle in state `REMOVED` contributes nothing to the radiograph:
the image produced by `synthetic_radiograph` from any ensemble is identical
to the image produced after discarding every `REMOVED` particle. -/
theorem radiograph_excludes_removed (detector e1 e2 : Vec3) (ext : Extent)
    (hbins vbins : ℕ) (ps : List Particle) :
    synthetic_radiograph detector e1 e2 ext hbins vbins ps
      = synthetic_radiograph detector e1 e2 ext hbins vbins
          (ps.filter notRemoved) := by
  unfold synthetic_radiograph
  refine congrArg (fun f => (haxEdges ext hbins, vaxEdges ext vbins, f)) ?_
  funext i j
  exact (intensity_filter_notRemoved detector e1 e2 ext hbins vbins ps i j).symm

/-!
## Units of the stored geometry
-/

/-- C10: the geometry attributes stored by the constructor are plain
SI-metre numbers, whatever unit scale the input quantities carry; a caller
recovers centimetres by multiplying by 100 (and a millimetre input value
`v` is stored as `v / 1000`). -/
theorem geometry_stored_in_si_meters (s1 s2 s3 d1 d2 d3 : Quantity) :
    (mkRadiograph s1 s2 s3 d1 d2 d3).source = ⟨s1.si, s2.si, s3.si⟩
    ∧ (mkRadiograph s1 s2 s3 d1 d2 d3).detector = ⟨d1.si, d2.si, d3.si⟩
    ∧ (∀ q : Quantity, toUnit cmScale q.si = 100 * q.si)
    ∧ (∀ v : ℚ, Quantity.si ⟨v, mmScale⟩ = v / 1000) := by
  refine ⟨rfl, rfl, fun q => ?_, fun v => ?_⟩
  · unfold toUnit cmScale
    ring
  · unfold Quantity.si mmScale
    ring

/-!
## Driver lemmas: conservation and termination
-/

theorem stateSum_eq_length (ps : List Particle) : stateSum ps = ps.length := by
  induction ps with
  | nil => rfl
  | cons p l ih =>
    simp only [stateSum, stateCount, List.countP_cons] at ih ⊢
    cases hp : p.st <;> simp [hp] <;> omega

theorem stepAll_length (g : Grid) (qm dt : ℚ) (ps : List Particle) :
    (stepAll g qm dt ps).length = ps.length := by
  simp [stepAll]

theorem steppedLoop_fst_length (g : Grid) (qm dt : ℚ) :
    ∀ (fuel : ℕ) (ps : List Particle),
      (steppedLoop g qm dt fuel ps).1.length = ps.length := by
  intro fuel
  induction fuel with
  | zero =>
    intro ps
    unfold steppedLoop
    split_ifs <;> rfl
  | succ k ih =>
    intro ps
    unfold steppedLoop
    split_ifs with h
    · rfl
    · rw [ih, stepAll_length]

theorem mem_loopEnsembles_length (g : Grid) (qm dt : ℚ) :
    ∀ (fuel : ℕ) (ps e : List Particle),
      e ∈ loopEnsembles g qm dt fuel ps → e.length = ps.length := by
  intro fuel
  induction fuel with
  | zero =>
    intro ps e he
    unfold loopEnsembles at he
    simp at he
    rw [he]
  | succ k ih =>
    intro ps e he
    unfold loopEnsembles at he
    split_ifs at he with h
    · simp at he
      rw [he]
    · rcases List.mem_cons.mp he with rfl | h2
      · rfl
      · rw [ih _ _ h2, stepAll_length]

theorem stopCond_count (ps : List Particle) (h : stopCond ps = true) :
    onGridCount ps ≤ threshold ps.length := by
  simp only [stopCond, Bool.and_eq_true, decide_eq_true_eq] at h
  exact h.2

theorem steppedLoop_status_cases (g : Grid) (qm dt : ℚ) :
    ∀ (fuel : ℕ) (ps : List Particle),
      ((steppedLoop g qm dt fuel ps).2 = RunStatus.converged
        ∧ stopCond (steppedLoop g qm dt fuel ps).1 = true)
      ∨ (steppedLoop g qm dt fuel ps).2 = RunStatus.didNotConverge := by
  intro fuel
  induction fuel with
  | zero =>
    intro ps
    unfold steppedLoop
    split_ifs with h
    · exact Or.inl ⟨rfl, h⟩
    · exact Or.inr rfl
  | succ k ih =>
    intro ps
    unfold steppedLoop
    split_ifs with h
    · exact Or.inl ⟨rfl, h⟩
    · exact ih _

theorem onGridCount_map_advanceToDetector (source detector : Vec3)
    (ps : List Particle) :
    onGridCount (ps.map (advanceToDetector source detector))
      ≤ onGridCount ps := by
  unfold onGridCount
  rw [List.countP_map]
  refine List.countP_mono_left (fun p _ hp => ?_)
  simp only [Function.comp] at hp
  unfold advanceToDetector at hp
  cases hst : p.st <;> rw [hst] at hp <;> dsimp only at hp
  · split_ifs at hp <;> simp_all
  · rfl
  · split_ifs at hp <;> simp_all
  · simp_all

/-- C1: at every iteration of a run — the initial ensemble, every state of
the stepped loop, and the final detector-plane ensemble — the particle
counts of the four lifecycle states sum to the particle count created by
`create_particles`: no phase transition loses or double-counts a
particle. -/
theorem run_conserves_particle_count
    (g : Grid) (source detector : Vec3) (qm dt tpre : ℚ) (budget : ℕ)
    (src : Vec3) (n : ℤ) (energy theta : ℚ) (dist : String)
    (sampler : ℕ → Vec3) (ps0 : List Particle)
    (hok : create_particles src n energy theta dist sampler = Except.ok ps0)
    (e : List Particle)
    (he : e ∈ runTrace g source detector qm dt tpre budget ps0) :
    stateSum e = n.toNat := by
  have hlen0 : ps0.length = n.toNat := by
    unfold create_particles at hok
    split_ifs at hok
    simp only [Except.ok.injEq] at hok
    rw [← hok]
    simp
  have hlen1 : (ps0.map (advanceStraight tpre)).length = ps0.length := by simp
  have hlen : e.length = ps0.length := by
    unfold runTrace at he
    rcases List.mem_cons.mp he with rfl | h2
    · rfl
    · rcases List.mem_append.mp h2 with h3 | h3
      · rw [mem_loopEnsembles_length g qm dt budget _ e h3, hlen1]
      · simp at h3
        rw [h3]
        simp only [List.length_map]
        rw [steppedLoop_fst_length, hlen1]
  rw [stateSum_eq_length, hlen, hlen0]

/-- Concrete instance of C1: the initial ensemble of a two-particle run. -/
theorem run_conserves_particle_count_witness :
    stateSum [⟨lineSource, ⟨0, 1, 0⟩, .PENDING⟩,
      ⟨lineSource, ⟨0, 1, 0⟩, .PENDING⟩] = (2 : ℤ).toNat :=
  run_conserves_particle_count lineGrid lineSource lineDetector 1 1 0 2
    lineSource 2 1 (1 / 2) "uniform" (fun _ => ⟨0, 1, 0⟩)
    [⟨lineSource, ⟨0, 1, 0⟩, .PENDING⟩, ⟨lineSource, ⟨0, 1, 0⟩, .PENDING⟩]
    (by norm_num [create_particles, knownDistribution]; rfl) _
    (by unfold runTrace; exact List.mem_cons_self _ _)

/-- C6: every run returns: the stepped loop either reaches the
near-completion condition within the iteration budget (status `converged`,
with the final `ON_GRID` count at or below the threshold) or runs out of
budget and is flagged `didNotConverge` — and in both cases the full
ensemble is still returned (Transition 4 runs regardless), never silently
treated as success. -/
theorem run_returns_with_termination_flag
    (g : Grid) (source detector : Vec3) (qm dt tpre : ℚ) (budget : ℕ)
    (ps0 : List Particle) :
    (run g source detector qm dt tpre budget ps0).particles.length
        = ps0.length
    ∧ (((run g source detector qm dt tpre budget ps0).status
          = RunStatus.converged
        ∧ onGridCount (run g source detector qm dt tpre budget ps0).particles
            ≤ threshold ps0.length)
      ∨ (run g source detector qm dt tpre budget ps0).status
          = RunStatus.didNotConverge) := by
  have hlen1 : (ps0.map (advanceStraight tpre)).length = ps0.length := by simp
  constructor
  · show ((steppedLoop g qm dt budget (ps0.map (advanceStraight tpre))).1.map
      (advanceToDetector source detector)).length = ps0.length
    simp only [List.length_map]
    rw [steppedLoop_fst_length, hlen1]
  · rcases steppedLoop_status_cases g qm dt budget
      (ps0.map (advanceStraight tpre)) with ⟨hcv, hstop⟩ | hnc
    · left
      refine ⟨hcv, ?_⟩
      have h1 := onGridCount_map_advanceToDetector source detector
        (steppedLoop g qm dt budget (ps0.map (advanceStraight tpre))).1
      have h2 := stopCond_count _ hstop
      rw [steppedLoop_fst_length, hlen1] at h2
      exact le_trans h1 h2
    · exact Or.inr hnc

/-!
## The progress observable (spec §4.4 progress reporting)
-/

theorem loopEnsembles_head (g : Grid) (qm dt : ℚ) (fuel : ℕ)
    (ps : List Particle) :
    (loopEnsembles g qm dt fuel ps).head? = some ps := by
  cases fuel
  · rfl
  · unfold loopEnsembles
    split_ifs <;> rfl

theorem onGridCount_all_pending (ps : List Particle)
    (hp : ∀ p ∈ ps, p.st = PState.PENDING) : onGridCount ps = 0 := by
  refine List.countP_eq_zero.mpr (fun p hmem => ?_)
  simp [hp p hmem]

/-- C8 (amended): the observable `ON_GRID` count is non-negative and starts
at 0, and at the end of a converged run it is at or below the
near-completion threshold; but the trace need not rise monotonically and
then fall — it can dip and rise again when an early particle leaves the
grid before a later one arrives (see the counterexample). -/
theorem onGrid_count_progress (g : Grid) (qm dt : ℚ) (fuel : ℕ)
    (ps : List Particle) (hp : ∀ p ∈ ps, p.st = PState.PENDING) :
    (loopTrace g qm dt fuel ps).head? = some 0
    ∧ (∀ c ∈ loopTrace g qm dt fuel ps, 0 ≤ c)
    ∧ (((steppedLoop g qm dt fuel ps).2 = RunStatus.converged
        ∧ onGridCount (steppedLoop g qm dt fuel ps).1 ≤ threshold ps.length)
      ∨ (steppedLoop g qm dt fuel ps).2 = RunStatus.didNotConverge) := by
  refine ⟨?_, fun c _ => Nat.zero_le c, ?_⟩
  · unfold loopTrace
    rw [List.head?_map, loopEnsembles_head]
    simp [onGridCount_all_pending ps hp]
  · rcases steppedLoop_status_cases g qm dt fuel ps with ⟨hcv, hstop⟩ | hnc
    · left
      refine ⟨hcv, ?_⟩
      have h := stopCond_count _ hstop
      rwa [steppedLoop_fst_length] at h
    · exact Or.inr hnc

/-- Concrete instance of C8 (amended), on the three-particle scenario. -/
theorem onGrid_count_progress_witness :
    (loopTrace boxGrid 1 1 4 dipParticles).head? = some 0
    ∧ (∀ c ∈ loopTrace boxGrid 1 1 4 dipParticles, 0 ≤ c)
    ∧ (((steppedLoop boxGrid 1 1 4 dipParticles).2 = RunStatus.converged
        ∧ onGridCount (steppedLoop boxGrid 1 1 4 dipParticles).1
            ≤ threshold dipParticles.length)
      ∨ (steppedLoop boxGrid 1 1 4 dipParticles).2
          = RunStatus.didNotConverge) :=
  onGrid_count_progress boxGrid 1 1 4 dipParticles (by decide)

/-- Counterexample to C8 as stated: in the concrete three-particle
zero-field run, the observed `ON_GRID` trace is `[0, 0, 2, 1, 2]` — it
falls from 2 to 1 when the fast particle leaves and rises back to 2 when
the late particle arrives, so the count does not monotonically rise and
then fall across the run. -/
theorem onGrid_trace_not_unimodal :
    loopTrace boxGrid 1 1 4 dipParticles = [0, 0, 2, 1, 2]
    ∧ risesThenFalls (loopTrace boxGrid 1 1 4 dipParticles) = false
    ∧ (steppedLoop boxGrid 1 1 4 dipParticles).2 = RunStatus.didNotConverge
    ∧ onGridCount (steppedLoop boxGrid 1 1 4 dipParticles).1
        > threshold dipParticles.length := by
  have h : loopTrace boxGrid 1 1 4 dipParticles = [0, 0, 2, 1, 2] := by
    norm_num [loopTrace, loopEnsembles, stepAll, stepParticle, Grid.contains,
      dipParticles, boxGrid, borisPush, halfKick, borisRotate, Vec3.cross,
      Vec3.normSq, Vec3.dot, Vec3.zero, stopCond, onGridCount, enteredCount,
      threshold, List.countP_cons, List.countP_nil]
    simp [onGridCount, List.countP_cons, List.countP_nil]
  have h2 : (steppedLoop boxGrid 1 1 4 dipParticles).2
        = RunStatus.didNotConverge
      ∧ onGridCount (steppedLoop boxGrid 1 1 4 dipParticles).1
          > threshold dipParticles.length := by
    norm_num [steppedLoop, stepAll, stepParticle, Grid.contains,
      dipParticles, boxGrid, borisPush, halfKick, borisRotate, Vec3.cross,
      Vec3.normSq, Vec3.dot, Vec3.zero, stopCond, onGridCount, enteredCount,
      threshold, List.countP_cons, List.countP_nil]
    simp
  exact ⟨h, by rw [h]; decide, h2.1, h2.2⟩

/-!
## Radiograph Builder: the histogram counts exactly the in-extent particles
-/

theorem binOf_lt (lo hi : ℚ) (n : ℕ) (c : ℚ) (hn : 0 < n)
    (h1 : lo ≤ c) (h2 : c < hi) : binOf lo hi n c < n := by
  have hpos : (0 : ℚ) < hi - lo := by linarith
  have hq : (c - lo) * n / (hi - lo) < n := by
    rw [div_lt_iff₀ hpos]
    have hc : c - lo < hi - lo := by linarith
    have hnq : (0 : ℚ) < n := by exact_mod_cast hn
    calc (c - lo) * n < (hi - lo) * n := by
          exact mul_lt_mul_of_pos_right hc hnq
      _ = (n : ℚ) * (hi - lo) := by ring
  have hfl : ⌊(c - lo) * n / (hi - lo)⌋ < (n : ℤ) := by
    rw [Int.floor_lt]
    exact_mod_cast hq
  unfold binOf
  omega

theorem sum_bin2_indicator (ext : Extent) (hbins vbins : ℕ) (c : ℚ × ℚ)
    (hb : 0 < hbins) (hv : 0 < vbins) :
    (∑ i ∈ Finset.range hbins, ∑ j ∈ Finset.range vbins,
      (if bin2 ext hbins vbins c == some (i, j) then (1 : ℕ) else 0))
      = (if inExtent ext c then 1 else 0) := by
  cases hin : inExtent ext c
  · have hb2 : bin2 ext hbins vbins c = none := by simp [bin2, hin]
    simp [hb2]
  · have hext : ((ext.hlo ≤ c.1 ∧ c.1 < ext.hhi) ∧ ext.vlo ≤ c.2)
        ∧ c.2 < ext.vhi := by
      simpa [inExtent, Bool.and_eq_true, decide_eq_true_eq] using hin
    obtain ⟨⟨⟨hx1, hx2⟩, hy1⟩, hy2⟩ := hext
    have hb2 : bin2 ext hbins vbins c
        = some (binOf ext.hlo ext.hhi hbins c.1,
            binOf ext.vlo ext.vhi vbins c.2) := by
      simp [bin2, hin]
    have hlt1 : binOf ext.hlo ext.hhi hbins c.1 < hbins :=
      binOf_lt _ _ _ _ hb hx1 hx2
    have hlt2 : binOf ext.vlo ext.vhi vbins c.2 < vbins :=
      binOf_lt _ _ _ _ hv hy1 hy2
    rw [hb2]
    simp only [beq_iff_eq, Option.some.injEq, Prod.mk.injEq]
    have inner : ∀ i : ℕ,
        (∑ j ∈ Finset.range vbins,
          if binOf ext.hlo ext.hhi hbins c.1 = i
            ∧ binOf ext.vlo ext.vhi vbins c.2 = j then (1 : ℕ) else 0)
        = if binOf ext.hlo ext.hhi hbins c.1 = i then 1 else 0 := by
      intro i
      by_cases hi : binOf ext.hlo ext.hhi hbins c.1 = i
      · simp only [hi, true_and]
        rw [Finset.sum_ite_eq (Finset.range vbins)
          (binOf ext.vlo ext.vhi vbins c.2) (fun _ => (1 : ℕ))]
        simp [Finset.mem_range, hlt2]
      · simp [hi]
    rw [Finset.sum_congr rfl (fun i _ => inner i)]
    rw [Finset.sum_ite_eq (Finset.range hbins)
      (binOf ext.hlo ext.hhi hbins c.1) (fun _ => (1 : ℕ))]
    simp [Finset.mem_range, hlt1]

/-- C3: the radiograph intensity summed over all bins equals the number of
non-`REMOVED` particles whose projected detector-plane position lies within
the given extent; and a position outside the extent is assigned to no bin
at all (dropped, never clipped into an edge bin).  The builder is a pure
function of the borrowed ensemble, so the ensemble is not mutated. -/
theorem totalIntensity_counts_in_extent (detector e1 e2 : Vec3)
    (ext : Extent) (hbins vbins : ℕ) (ps : List Particle)
    (hb : 0 < hbins) (hv : 0 < vbins) :
    totalIntensity detector e1 e2 ext hbins vbins ps
      = ps.countP (fun p => notRemoved p
          && inExtent ext (projectToPlane detector e1 e2 p.x))
    ∧ (∀ c : ℚ × ℚ, inExtent ext c = false
        → bin2 ext hbins vbins c = none) := by
  constructor
  · induction ps with
    | nil => simp [totalIntensity, intensity]
    | cons p l ih =>
      have hsplit : ∀ i j : ℕ,
          intensity detector e1 e2 ext hbins vbins (p :: l) i j
            = intensity detector e1 e2 ext hbins vbins l i j
              + (if (notRemoved p
                  && (bin2 ext hbins vbins
                        (projectToPlane detector e1 e2 p.x) == some (i, j)))
                then 1 else 0) :=
        fun i j => List.countP_cons ..
      unfold totalIntensity
      simp only [hsplit, Finset.sum_add_distrib]
      unfold totalIntensity at ih
      rw [ih, List.countP_cons]
      cases hnr : notRemoved p
      · simp [hnr]
      · simp only [hnr, Bool.true_and]
        rw [sum_bin2_indicator ext hbins vbins _ hb hv]
  · intro c hc
    simp [bin2, hc]

/-- Concrete instance of C3: a two-bin histogram over two particles, one of
them outside the extent. -/
theorem totalIntensity_counts_in_extent_witness :
    (totalIntensity Vec3.zero ⟨1, 0, 0⟩ ⟨0, 0, 1⟩ ⟨-1, 1, -1, 1⟩ 2 2
        [⟨⟨0, 0, 0⟩, ⟨0, 1, 0⟩, .LEFT_GRID⟩, ⟨⟨5, 0, 0⟩, ⟨0, 1, 0⟩, .LEFT_GRID⟩]
      = List.countP (fun p => notRemoved p
          && inExtent ⟨-1, 1, -1, 1⟩
              (projectToPlane Vec3.zero ⟨1, 0, 0⟩ ⟨0, 0, 1⟩ p.x))
          [⟨⟨0, 0, 0⟩, ⟨0, 1, 0⟩, .LEFT_GRID⟩,
            ⟨⟨5, 0, 0⟩, ⟨0, 1, 0⟩, .LEFT_GRID⟩])
    ∧ (∀ c : ℚ × ℚ, inExtent ⟨-1, 1, -1, 1⟩ c = false
        → bin2 ⟨-1, 1, -1, 1⟩ 2 2 c = none) :=
  totalIntensity_counts_in_extent Vec3.zero ⟨1, 0, 0⟩ ⟨0, 0, 1⟩ ⟨-1, 1, -1, 1⟩
    2 2 _ (by norm_num) (by norm_num)

/-!
## Zero-field runs are straight lines
-/

theorem Vec3.ext3 (a b : Vec3) (h1 : a.x = b.x) (h2 : a.y = b.y)
    (h3 : a.z = b.z) : a = b := by
  cases a
  cases b
  simp_all

theorem Vec3.add_smul_smul (x v : Vec3) (a b : ℚ) :
    x + a • v + b • v = x + (a + b) • v := by
  refine Vec3.ext3 _ _ ?_ ?_ ?_ <;> simp <;> ring

theorem Vec3.add_zero_smul (x v : Vec3) : x + (0 : ℚ) • v = x := by
  refine Vec3.ext3 _ _ ?_ ?_ ?_ <;> simp

theorem steppedLoop_fst_iterate (g : Grid) (qm dt : ℚ) :
    ∀ (fuel : ℕ) (ps : List Particle),
      ∃ k : ℕ, (steppedLoop g qm dt fuel ps).1 = (stepAll g qm dt)^[k] ps := by
  intro fuel
  induction fuel with
  | zero =>
    intro ps
    refine ⟨0, ?_⟩
    unfold steppedLoop
    split_ifs <;> rfl
  | succ n ih =>
    intro ps
    unfold steppedLoop
    split_ifs with h
    · exact ⟨0, rfl⟩
    · obtain ⟨k, hk⟩ := ih (stepAll g qm dt ps)
      exact ⟨k + 1, by rw [Function.iterate_succ_apply]; exact hk⟩

theorem iterate_stepAll_map (g : Grid) (qm dt : ℚ) :
    ∀ (k : ℕ) (ps : List Particle),
      (stepAll g qm dt)^[k] ps = ps.map ((stepParticle g qm dt)^[k]) := by
  intro k
  induction k with
  | zero =>
    intro ps
    simp
  | succ n ih =>
    intro ps
    rw [Function.iterate_succ_apply, ih]
    show (ps.map (stepParticle g qm dt)).map ((stepParticle g qm dt)^[n])
      = ps.map ((stepParticle g qm dt)^[n + 1])
    rw [List.map_map, Function.iterate_succ]

theorem stepParticle_zero_field (g : Grid) (qm dt : ℚ)
    (hzE : ∀ q : Vec3, g.Efield q = Vec3.zero)
    (hzB : ∀ q : Vec3, g.Bfield q = Vec3.zero)
    (p : Particle) (hst : p.st ≠ PState.REMOVED) :
    (stepParticle g qm dt p).v = p.v
    ∧ (stepParticle g qm dt p).st ≠ PState.REMOVED
    ∧ ∃ a : ℚ, (stepParticle g qm dt p).x = p.x + a • p.v := by
  unfold stepParticle
  cases hs : p.st
  · rw [hzE, hzB, borisPush_zero_fields]
    split_ifs <;> exact ⟨rfl, by simp, dt, rfl⟩
  · rw [hzE, hzB, borisPush_zero_fields]
    split_ifs
    · exact ⟨rfl, by simp, dt, rfl⟩
    · exact ⟨rfl, by simp, 0, (Vec3.add_zero_smul _ _).symm⟩
  · exact ⟨rfl, by simp [hs], 0, (Vec3.add_zero_smul _ _).symm⟩
  · exact absurd hs hst

theorem stepParticle_iterate_zero_field (g : Grid) (qm dt : ℚ)
    (hzE : ∀ q : Vec3, g.Efield q = Vec3.zero)
    (hzB : ∀ q : Vec3, g.Bfield q = Vec3.zero) (k : ℕ) (p : Particle)
    (hst : p.st ≠ PState.REMOVED) :
    ((stepParticle g qm dt)^[k] p).v = p.v
    ∧ ((stepParticle g qm dt)^[k] p).st ≠ PState.REMOVED
    ∧ ∃ a : ℚ, ((stepParticle g qm dt)^[k] p).x = p.x + a • p.v := by
  induction k with
  | zero => exact ⟨rfl, hst, 0, (Vec3.add_zero_smul _ _).symm⟩
  | succ n ih =>
    obtain ⟨ihv, ihst, a, ihx⟩ := ih
    obtain ⟨hv, hs, b, hx⟩ :=
      stepParticle_zero_field g qm dt hzE hzB ((stepParticle g qm dt)^[n] p)
        ihst
    rw [Function.iterate_succ_apply']
    refine ⟨by rw [hv, ihv], hs, a + b, ?_⟩
    rw [hx, ihx, ihv, Vec3.add_smul_smul]

theorem advanceStraight_spec (t : ℚ) (p : Particle)
    (hst : p.st ≠ PState.REMOVED) :
    (advanceStraight t p).v = p.v ∧ (advanceStraight t p).st = p.st
    ∧ (advanceStraight t p).x = p.x + t • p.v := by
  unfold advanceStraight
  cases hs : p.st
  · exact ⟨rfl, rfl, rfl⟩
  · exact ⟨rfl, rfl, rfl⟩
  · exact ⟨rfl, rfl, rfl⟩
  · exact absurd hs hst

theorem advanceToDetector_arm (source detector : Vec3) (q : Particle)
    (hst : q.st ≠ PState.REMOVED) :
    advanceToDetector source detector q
      = (if q.v.dot (detector - source) ≤ 0 then ⟨q.x, q.v, .REMOVED⟩
        else ⟨q.x + (((detector - q.x).dot (detector - source))
            / (q.v.dot (detector - source))) • q.v, q.v, q.st⟩) := by
  unfold advanceToDetector
  cases hs : q.st
  · rfl
  · rfl
  · rfl
  · exact absurd hs hst

theorem advanceToDetector_straight (source detector v0 : Vec3) (q : Particle)
    (hv : q.v = v0) (a : ℚ) (hx : q.x = source + a • v0)
    (hst : q.st ≠ PState.REMOVED)
    (hkeep : (advanceToDetector source detector q).st ≠ PState.REMOVED) :
    (advanceToDetector source detector q).x
        = straightLineTarget source detector v0
    ∧ (advanceToDetector source detector q).v = v0 := by
  rw [advanceToDetector_arm source detector q hst] at hkeep ⊢
  split_ifs at hkeep ⊢ with hvn
  · simp at hkeep
  · refine ⟨?_, hv⟩
    have hpos : 0 < v0.dot (detector - source) :=
      lt_of_not_le (by rwa [hv] at hvn)
    have hne : v0.dot (detector - source) ≠ 0 := ne_of_gt hpos
    show q.x + (((detector - q.x).dot (detector - source))
        / (q.v.dot (detector - source))) • q.v
      = straightLineTarget source detector v0
    rw [hv, hx]
    unfold straightLineTarget
    simp only [Vec3.dot, Vec3.sub_def, Vec3.add_def, Vec3.smul_def] at hne ⊢
    refine Vec3.ext3 _ _ ?_ ?_ ?_ <;> (field_simp; ring)

/-- C7: in a run whose field grid is zero everywhere, every particle that
survives to the detector ends exactly at the straight-line projection of
its initial velocity ray from the source onto the detector plane, with its
initial velocity unchanged. -/
theorem zero_field_run_straight_line
    (g : Grid) (source detector : Vec3) (qm dt tpre : ℚ) (budget : ℕ)
    (ps0 : List Particle) (i : ℕ) (hi : i < ps0.length)
    (hi2 : i < (run g source detector qm dt tpre budget ps0).particles.length)
    (hzE : ∀ q : Vec3, g.Efield q = Vec3.zero)
    (hzB : ∀ q : Vec3, g.Bfield q = Vec3.zero)
    (hstart : ∀ p ∈ ps0, p.x = source ∧ p.st = PState.PENDING)
    (hkeep : ((run g source detector qm dt tpre budget ps0).particles.get
        ⟨i, hi2⟩).st ≠ PState.REMOVED) :
    ((run g source detector qm dt tpre budget ps0).particles.get ⟨i, hi2⟩).x
        = straightLineTarget source detector ((ps0.get ⟨i, hi⟩).v)
    ∧ ((run g source detector qm dt tpre budget ps0).particles.get
        ⟨i, hi2⟩).v = (ps0.get ⟨i, hi⟩).v := by
  obtain ⟨k, hk⟩ := steppedLoop_fst_iterate g qm dt budget
    (ps0.map (advanceStraight tpre))
  have hrun : (run g source detector qm dt tpre budget ps0).particles
      = ps0.map (fun p => advanceToDetector source detector
          ((stepParticle g qm dt)^[k] (advanceStraight tpre p))) := by
    show ((steppedLoop g qm dt budget (ps0.map (advanceStraight tpre))).1.map
      (advanceToDetector source detector)) = _
    rw [hk, iterate_stepAll_map, List.map_map, List.map_map]
    rfl
  have e1 := List.get_of_eq hrun ⟨i, hi2⟩
  have e2 : (ps0.map (fun p => advanceToDetector source detector
        ((stepParticle g qm dt)^[k] (advanceStraight tpre p)))).get
        ⟨i, hrun ▸ hi2⟩
      = advanceToDetector source detector
          ((stepParticle g qm dt)^[k] (advanceStraight tpre
            (ps0.get ⟨i, hi⟩))) := List.get_map ..
  have efin : (run g source detector qm dt tpre budget ps0).particles.get
        ⟨i, hi2⟩
      = advanceToDetector source detector
          ((stepParticle g qm dt)^[k] (advanceStraight tpre
            (ps0.get ⟨i, hi⟩))) := e1.trans e2
  obtain ⟨hx0, hst0⟩ := hstart (ps0.get ⟨i, hi⟩) (ps0.get_mem _ _)
  have hstne : (ps0.get ⟨i, hi⟩).st ≠ PState.REMOVED := by
    rw [hst0]
    intro h
    cases h
  obtain ⟨hv1, hs1, hx1⟩ := advanceStraight_spec tpre (ps0.get ⟨i, hi⟩) hstne
  have hs1ne : (advanceStraight tpre (ps0.get ⟨i, hi⟩)).st ≠ PState.REMOVED :=
    by rw [hs1]; exact hstne
  obtain ⟨hv2, hs2, a, hx2⟩ := stepParticle_iterate_zero_field g qm dt hzE hzB
    k _ hs1ne
  have hqv : ((stepParticle g qm dt)^[k]
      (advanceStraight tpre (ps0.get ⟨i, hi⟩))).v = (ps0.get ⟨i, hi⟩).v := by
    rw [hv2, hv1]
  have hqx : ((stepParticle g qm dt)^[k]
        (advanceStraight tpre (ps0.get ⟨i, hi⟩))).x
      = source + (tpre + a) • (ps0.get ⟨i, hi⟩).v := by
    rw [hx2, hv1, hx1, hx0]
    exact Vec3.add_smul_smul _ _ _ _
  rw [efin] at hkeep ⊢
  exact advanceToDetector_straight source detector ((ps0.get ⟨i, hi⟩).v) _
    hqv (tpre + a) hqx hs2 hkeep

/-- The concrete zero-field run, evaluated: the single particle coasts to
the detector plane. -/
theorem lineRun_eval :
    run lineGrid lineSource lineDetector 1 1 0 3 lineParticles
      = ⟨[⟨⟨0, 4, 0⟩, ⟨0, 1, 0⟩, PState.ON_GRID⟩],
          RunStatus.didNotConverge⟩ := by
  norm_num [run, steppedLoop, stepAll, stepParticle, Grid.contains, lineGrid,
    lineParticles, lineSource, lineDetector, borisPush, halfKick, borisRotate,
    Vec3.cross, Vec3.normSq, Vec3.dot, Vec3.zero, stopCond, onGridCount,
    enteredCount, threshold, List.countP_cons, List.countP_nil,
    advanceStraight, advanceToDetector]
  simp
  norm_num [advanceToDetector, Vec3.dot, Vec3.sub_def, Vec3.add_def,
    Vec3.smul_def]

/-- Concrete instance of C7, on the single-particle zero-field run. -/
theorem zero_field_run_straight_line_witness :
    ((run lineGrid lineSource lineDetector 1 1 0 3
        lineParticles).particles.get
        ⟨0, by rw [lineRun_eval]; norm_num⟩).x
        = straightLineTarget lineSource lineDetector
            ((lineParticles.get ⟨0, by norm_num [lineParticles]⟩).v)
    ∧ ((run lineGrid lineSource lineDetector 1 1 0 3
        lineParticles).particles.get
        ⟨0, by rw [lineRun_eval]; norm_num⟩).v
        = (lineParticles.get ⟨0, by norm_num [lineParticles]⟩).v := by
  have hpar : (run lineGrid lineSource lineDetector 1 1 0 3
        lineParticles).particles
      = [⟨⟨0, 4, 0⟩, ⟨0, 1, 0⟩, PState.ON_GRID⟩] :=
    congrArg RunResult.particles lineRun_eval
  refine zero_field_run_straight_line lineGrid lineSource lineDetector 1 1 0 3
    lineParticles 0 (by norm_num [lineParticles])
    (by rw [lineRun_eval]; norm_num) (fun _ => rfl) (fun _ => rfl) ?_ ?_
  · intro p hp
    simp only [lineParticles, List.mem_singleton] at hp
    subst hp
    exact ⟨rfl, rfl⟩
  · rw [List.get_of_eq hpar]
    intro h
    cases h

end ProtonRad
